import Mathlib

/-!
Verification of the adaptive-concurrency task execution engine of the
`parkour-to-the-moon` repository (a Crossmint Megaverse solution).

The development shallowly embeds the TypeScript sources:

* `src/utils/retry.ts` — `getDelayFromHeaders`, `calculateDelay`, `retry`;
* the `adjustConcurrency` method of the two `MegaverseBuilder` variants
  (files `part_004` and `part_005`);
* `runtWithConcurrencyLimit` from `src/utils/concurrency.ts`, modelled as a
  small-step transition system over cooperative worker interleavings;
* the `RateLimiter` token bucket from `src/utils/concurrency.ts`;
* the `processBatches` batch schedulers of the two builder variants.

JavaScript numbers are modelled as `ℚ` (for token counts and delays) and `ℤ`
(for timestamps and counters).  Suspension points (`await`) are modelled by
splitting a worker's loop body into separate atomic events, so that any
cooperative interleaving of the real program corresponds to an event trace of
the model.
-/

set_option autoImplicit false

/-! ### Shared error model

`MegaverseApiClient.ts` throws `ApiError extends Error` carrying a `message`
(which embeds the HTTP status in pattern-matchable form), a numeric `status`
and the response `headers`.  `retry.ts` reads `err.message` (for the `"429"`
substring test) and `err.headers.get("retry-after")`, which can throw.  -/

/-- What reading `err.headers` / `err.headers.get("retry-after")` does:
either `err.headers` is missing (or has no `get`), or the read throws, or it
returns `null` / a header string.  -/
inductive HeaderSource where
  | absent : HeaderSource
  | getThrows : HeaderSource
  | retryAfter : Option String → HeaderSource
deriving DecidableEq

/-- Model of the errors thrown by the API client (`ApiError`): a message, an
HTTP status code, and the response headers.  -/
structure JsError where
  message : String
  status : Nat
  headers : HeaderSource
deriving DecidableEq

/-- Infix test on character lists, built from `List.isPrefixOf`;
`hasInfix n h` models JavaScript `h.includes(n)` for strings.  -/
def hasInfix (needle : List Char) : List Char → Bool
  | [] => needle.isEmpty
  | c :: rest => needle.isPrefixOf (c :: rest) || hasInfix needle rest

/-- Model of `msg.includes("429")`, the rate-limit test used throughout the
sources.  -/
def includes429 (msg : String) : Bool :=
  hasInfix "429".data msg.data

/-! ### `src/utils/retry.ts` -/

/-- Model of `parseInt(retryAfter, 10)` on an all-digit string.  -/
def parseDigits (s : String) : Nat :=
  s.data.foldl (fun a c => a * 10 + (c.toNat - 48)) 0

/-- Model of the regular-expression test `/^\d+$/.test(retryAfter)`.  -/
def allDigits (s : String) : Bool :=
  !s.isEmpty && s.data.all Char.isDigit

/-- Embedding of `getDelayFromHeaders(err, defaultDelay)` from
`src/utils/retry.ts`.
`parseDate s` stands for `new Date(s).getTime()` and `now` for `Date.now()`.
The `getThrows` case is the `catch` branch: it logs a warning and falls
through to `return defaultDelay`.  -/
def getDelayFromHeaders (parseDate : String → ℤ) (now : ℤ) (err : JsError)
    (defaultDelay : ℚ) : ℚ :=
  match err.headers with
  | .absent => defaultDelay
  | .getThrows => defaultDelay
  | .retryAfter none => defaultDelay
  | .retryAfter (some s) =>
      if allDigits s then (parseDigits s : ℚ) * 1000
      else max 0 ((parseDate s - now : ℤ) : ℚ)

/-- Embedding of `calculateDelay(attempt, err, options)` from
`src/utils/retry.ts`.
`jitterFactor` stands for the random draw `0.7 + Math.random() * 0.6`;
`Math.floor` is `Int.floor`.  -/
def calculateDelay (parseDate : String → ℤ) (now : ℤ) (attempt : Nat)
    (err : JsError) (factor minTimeout maxTimeout : ℚ) (jitter : Bool)
    (jitterFactor : ℚ) : ℚ :=
  let delay0 := minTimeout * factor ^ (attempt - 1)
  let delay1 := min delay0 maxTimeout
  let delay2 :=
    if includes429 err.message then
      min (getDelayFromHeaders parseDate now err (delay1 * 2)) maxTimeout
    else delay1
  if jitter then (⌊delay2 * jitterFactor⌋ : ℤ) else delay2

/-- Ambient data the `retry` loop reads from the environment: `Date.now()` and
`Math.random()` at the `attempt`-th delay computation, plus date parsing.  -/
structure RetryEnv where
  parseDate : String → ℤ
  now : Nat → ℤ
  jitterFactor : Nat → ℚ

/-- Observable outcome of one `retry(fn, options)` invocation: the value
returned or error thrown, how many times `fn` was invoked, and the list of
delays passed to `sleep` (in order).  -/
structure RetryTrace (α : Type) where
  result : Except JsError α
  calls : Nat
  sleeps : List ℚ

/-- The default `shouldRetry = () => true` of `retry` in `src/utils/retry.ts`:
it ignores the error entirely.  -/
def defaultShouldRetry : JsError → Bool := fun _ => true

/-- The `while (true)` loop of `retry` from `src/utils/retry.ts`, entered with
failure counter `attempt`.  `fn k` is the outcome of the `k`-th invocation of
`fn` (0-indexed, so the invocation made when `attempt = k`).  On failure the
counter is incremented; if `attempt > retries || !shouldRetry(err)` the error
is rethrown, otherwise the loop sleeps for `calculateDelay` and re-enters.  -/
def retryFrom {α : Type} (env : RetryEnv) (fn : Nat → Except JsError α)
    (retries : Nat) (factor minTimeout maxTimeout : ℚ) (jitter : Bool)
    (shouldRetry : JsError → Bool) (attempt : Nat) : RetryTrace α :=
  match fn attempt with
  | .ok v => ⟨.ok v, 1, []⟩
  | .error e =>
      if h : retries < attempt + 1 ∨ shouldRetry e = false then
        ⟨.error e, 1, []⟩
      else
        let d := calculateDelay env.parseDate (env.now (attempt + 1))
          (attempt + 1) e factor minTimeout maxTimeout jitter
          (env.jitterFactor (attempt + 1))
        let t := retryFrom env fn retries factor minTimeout maxTimeout jitter
          shouldRetry (attempt + 1)
        ⟨t.result, t.calls + 1, d :: t.sleeps⟩
termination_by retries + 1 - attempt
decreasing_by
  push_neg at h
  omega

/-- Embedding of `retry(fn, options)` from `src/utils/retry.ts`: the loop
started with
`attempt = 0`.  -/
def retryModel {α : Type} (env : RetryEnv) (fn : Nat → Except JsError α)
    (retries : Nat) (factor minTimeout maxTimeout : ℚ) (jitter : Bool)
    (shouldRetry : JsError → Bool) : RetryTrace α :=
  retryFrom env fn retries factor minTimeout maxTimeout jitter shouldRetry 0

/-! ### `adjustConcurrency` of the two `MegaverseBuilder` variants

Both take the state `(concurrency, error429Count)` to a new state; the second
component is the error counter, reset to `0` at the end of the method.  -/

/-- Embedding of `MegaverseBuilder.adjustConcurrency` from variant `part_004`
(`maxConcurrency = 10` there): on a quiet window grow by one capped at
`maxConcurrency`; otherwise reduce by `Math.min(error429Count, concurrency-1)`
clamped with `Math.max(1, ·)`.  -/
def adjustConcurrency_v4 (maxConcurrency concurrency error429Count : ℤ) :
    ℤ × ℤ :=
  if error429Count = 0 then
    (min (concurrency + 1) maxConcurrency, 0)
  else
    let reduction := min error429Count (concurrency - 1)
    (max 1 (concurrency - reduction), 0)

/-- Embedding of `MegaverseBuilder.adjustConcurrency` from variant `part_005`
(`maxConcurrency = 8` there): grow by one capped, or
`Math.max(1, concurrency - error429)`.  -/
def adjustConcurrency_v5 (maxConcurrency concurrency error429 : ℤ) : ℤ × ℤ :=
  if error429 = 0 then
    (min (concurrency + 1) maxConcurrency, 0)
  else
    (max 1 (concurrency - error429), 0)

/-! ### `runtWithConcurrencyLimit` from `src/utils/concurrency.ts`

The pool spawns `new Array(limit).fill(0).map(async () => …)` workers sharing
the cursor `i` and the `results` array.  Each loop iteration is split at its
`await` points into atomic events: the synchronous check-and-claim
`while (i < tasks.length) ... const current = i++ ...`, the settlement of the
awaited task (which writes `results[current]`), and the worker leaving the
loop once it observes `i >= tasks.length`.  A task is modelled by its eventual outcome
`Except ε α`; the rate-limiter gate only delays a worker between claim and
settlement, which the event split already allows.  -/

/-- The `PromiseSettledResult` union: status fulfilled with a value, or
status rejected with a reason.  -/
inductive SettledResult (ε α : Type) where
  | fulfilled : α → SettledResult ε α
  | rejected : ε → SettledResult ε α
deriving DecidableEq

/-- How the `try`/`catch` around `await tasks[current]()` records an outcome. -/
def settle {ε α : Type} : Except ε α → SettledResult ε α
  | .ok v => .fulfilled v
  | .error e => .rejected e

/-- Where a worker is in its loop: at the loop head, holding a claimed index
while its task is in flight, or exited.  -/
inductive WorkerPhase where
  | idle : WorkerPhase
  | claimed : Nat → WorkerPhase
  | done : WorkerPhase
deriving DecidableEq

/-- Shared state of one `runtWithConcurrencyLimit` invocation: the cursor `i`,
the `results` array (a JavaScript array with holes: `none` entries are
never-assigned slots), and each worker's phase.  -/
structure PoolState (ε α : Type) where
  cursor : Nat
  results : List (Option (SettledResult ε α))
  workers : List WorkerPhase
deriving DecidableEq

/-- JavaScript `arr[k] = v`: assigns in place, padding with holes when `k` is
beyond the current length.  -/
def jsSet {β : Type} (l : List (Option β)) (k : Nat) (v : β) :
    List (Option β) :=
  if k < l.length then l.set k (some v)
  else l ++ List.replicate (k - l.length) none ++ [some v]

/-- One cooperative step of some worker `w`.  -/
inductive PoolEvent where
  | claim : Nat → PoolEvent
  | finish : Nat → PoolEvent
  | leave : Nat → PoolEvent
deriving DecidableEq

/-- The atomic transitions of `runtWithConcurrencyLimit`:
`claim w` is the synchronous check-and-claim `const current = i++` under
`while (i < tasks.length)`
of an idle worker; `finish w` is the settlement of the claimed task, writing
`results[current]` (fulfilled or rejected — the `catch` never rethrows);
`leave w` is an idle worker observing `i >= tasks.length` and exiting.
`none` means the event is not enabled in this state.  -/
def poolStep {ε α : Type} (tasks : List (Except ε α)) (s : PoolState ε α) :
    PoolEvent → Option (PoolState ε α)
  | .claim w =>
      match s.workers[w]? with
      | some .idle =>
          if s.cursor < tasks.length then
            some ⟨s.cursor + 1, s.results,
              s.workers.set w (.claimed s.cursor)⟩
          else none
      | _ => none
  | .finish w =>
      match s.workers[w]? with
      | some (.claimed k) =>
          match tasks[k]? with
          | some t =>
              some ⟨s.cursor, jsSet s.results k (settle t),
                s.workers.set w .idle⟩
          | none => none
      | _ => none
  | .leave w =>
      match s.workers[w]? with
      | some .idle =>
          if tasks.length ≤ s.cursor then
            some ⟨s.cursor, s.results, s.workers.set w .done⟩
          else none
      | _ => none

/-- Initial state: `i = 0`, `results = []`, `limit` workers at their loop
heads.  -/
def poolInit {ε α : Type} (limit : Nat) : PoolState ε α :=
  ⟨0, [], List.replicate limit .idle⟩

/-- Run a trace of cooperative events.  -/
def poolRun {ε α : Type} (tasks : List (Except ε α)) :
    PoolState ε α → List PoolEvent → Option (PoolState ε α)
  | s, [] => some s
  | s, e :: es =>
      match poolStep tasks s e with
      | some s' => poolRun tasks s' es
      | none => none

/-- The point where `Promise.all(runners)` has resolved: every spawned
worker has exited its
loop.  This is the point where `runtWithConcurrencyLimit` returns `results`. -/
def poolDone {ε α : Type} (s : PoolState ε α) : Prop :=
  ∀ p ∈ s.workers, p = WorkerPhase.done

instance {ε α : Type} (s : PoolState ε α) : Decidable (poolDone s) :=
  List.decidableBAll _ s.workers

/-! ### `RateLimiter` from `src/utils/concurrency.ts`

Token counts are `ℚ` and timestamps (`Date.now()`) are `ℤ` milliseconds.
`runtWithConcurrencyLimit` constructs `new RateLimiter(limit * 2, limit * 0.5)`
so `maxTokens = 2 * limit` and `refillRate = (limit * 0.5) / 1000` tokens/ms.

`getToken` runs `refill()` and the `tokens >= 1` test synchronously; when it
must wait, the decrement `this.tokens -= 1` happens only after the `sleep`,
without re-running `refill`.  Several callers can therefore be asleep at once,
each owing a decrement.  The concurrent model makes every such atomic section
an event; a separate sequential model covers the one-caller-at-a-time use.  -/

/-- The body of `RateLimiter.refill()` executed at time `now`:
`min(maxTokens, tokens + (now - lastRefill) * refillRate)`.  -/
def refillTokens (maxTokens rate : ℚ) (tokens : ℚ) (lastRefill now : ℤ) : ℚ :=
  min maxTokens (tokens + ((now - lastRefill : ℤ) : ℚ) * rate)

/-- Concurrent rate-limiter state: the two fields of the class, the current
clock, and the wake deadlines of callers sleeping inside `getToken`.  -/
structure RLState where
  tokens : ℚ
  lastRefill : ℤ
  now : ℤ
  waiters : List ℤ
deriving DecidableEq

/-- Atomic sections of `getToken` callers, plus the passage of time:
`advance d` moves the clock; `getHasToken` is `refill(); tokens >= 1;
tokens -= 1`; `getMustWait` is `refill(); tokens < 1;` compute
`waitTime = Math.ceil((1 - tokens) / refillRate)` and start sleeping;
`wakeWaiter i` is sleeper `i` resuming (at or after its deadline) and running
`this.tokens -= 1`.  -/
inductive RLEvent where
  | advance : ℤ → RLEvent
  | getHasToken : RLEvent
  | getMustWait : RLEvent
  | wakeWaiter : Nat → RLEvent

/-- One atomic step of the concurrent `RateLimiter` model.  -/
def rlStep (maxTokens rate : ℚ) (s : RLState) : RLEvent → Option RLState
  | .advance d =>
      if 0 ≤ d then some ⟨s.tokens, s.lastRefill, s.now + d, s.waiters⟩
      else none
  | .getHasToken =>
      let t := refillTokens maxTokens rate s.tokens s.lastRefill s.now
      if 1 ≤ t then some ⟨t - 1, s.now, s.now, s.waiters⟩ else none
  | .getMustWait =>
      let t := refillTokens maxTokens rate s.tokens s.lastRefill s.now
      if t < 1 then
        some ⟨t, s.now, s.now, s.waiters ++ [s.now + ⌈(1 - t) / rate⌉]⟩
      else none
  | .wakeWaiter i =>
      match s.waiters[i]? with
      | some d =>
          if d ≤ s.now then
            some ⟨s.tokens - 1, s.lastRefill, s.now, s.waiters.eraseIdx i⟩
          else none
      | none => none

/-- Constructor state at time `t0`: full bucket, `lastRefill = Date.now()`.  -/
def rlInit (maxTokens : ℚ) (t0 : ℤ) : RLState := ⟨maxTokens, t0, t0, []⟩

/-- Run a trace of concurrent rate-limiter events.  -/
def rlRun (maxTokens rate : ℚ) : RLState → List RLEvent → Option RLState
  | s, [] => some s
  | s, e :: es =>
      match rlStep maxTokens rate s e with
      | some s' => rlRun maxTokens rate s' es
      | none => none

/-- Sequential (one caller at a time) rate-limiter state: the class fields
plus the time at which the previous `getToken` call completed — the earliest
moment the next call can start.  -/
structure RLSeq where
  tokens : ℚ
  lastRefill : ℤ
  ready : ℤ

/-- A full sequential `getToken()` call at time `t`: refill, then either
consume immediately, or sleep `Math.ceil((1 - tokens) / refillRate)` ms and
consume on waking (without re-refilling) — the caller is then busy until
`t + waitTime`.  -/
def getTokenSeq (maxTokens rate : ℚ) (s : RLSeq) (t : ℤ) : RLSeq :=
  let tk := refillTokens maxTokens rate s.tokens s.lastRefill t
  if 1 ≤ tk then ⟨tk - 1, t, t⟩
  else ⟨tk - 1, t, t + ⌈(1 - tk) / rate⌉⟩

/-- Run sequential `getToken` calls at the given times; each call must start
no earlier than the completion of the previous one.  -/
def rlSeqRun (maxTokens rate : ℚ) : RLSeq → List ℤ → Option RLSeq
  | s, [] => some s
  | s, t :: ts =>
      if s.ready ≤ t then rlSeqRun maxTokens rate (getTokenSeq maxTokens rate s t) ts
      else none

/-! ### `processBatches` of the two `MegaverseBuilder` variants

For batching, all that matters about a task is its settled result; a task is
modelled by its outcome, with the rejection reason's `message` as a `String`.
`runtWithConcurrencyLimit` on a batch returns exactly those outcomes (the
positional-alignment fact proved for the pool model), so the scheduler model
consumes outcomes directly.  The periodic `setInterval` tick is modelled by an
optional `adjustConcurrency` firing right before a batch starts (`ticks`).  -/

/-- Mutable builder fields read by the schedulers.  -/
structure BuilderState where
  concurrency : ℤ
  error429 : ℤ
deriving DecidableEq

/-- The `adjustConcurrency` of variant `part_004` as a state update.  -/
def adjust4St (maxConcurrency : ℤ) (st : BuilderState) : BuilderState :=
  ⟨(adjustConcurrency_v4 maxConcurrency st.concurrency st.error429).1,
   (adjustConcurrency_v4 maxConcurrency st.concurrency st.error429).2⟩

/-- The `adjustConcurrency` of variant `part_005` as a state update.  -/
def adjust5St (maxConcurrency : ℤ) (st : BuilderState) : BuilderState :=
  ⟨(adjustConcurrency_v5 maxConcurrency st.concurrency st.error429).1,
   (adjustConcurrency_v5 maxConcurrency st.concurrency st.error429).2⟩

/-- Model of `batchResults.filter(r => r.status === "rejected" &&
reason.message.includes("429")).length`.  -/
def count429 (batch : List (SettledResult String Unit)) : ℤ :=
  (batch.filter fun r =>
    match r with
    | .rejected msg => includes429 msg
    | .fulfilled _ => false).length

/-- The slicing loop `for (let i = 0; i < allTasks.length; i += batchSize)`
with `batches.push(allTasks.slice(i, i + batchSize))`.  -/
def toBatches {β : Type} (batchSize : Nat) : List β → List (List β)
  | [] => []
  | x :: xs =>
      (x :: xs.take (batchSize - 1)) :: toBatches batchSize (xs.drop (batchSize - 1))
termination_by l => l.length
decreasing_by
  simp only [List.length_cons, List.length_drop]
  omega

/-- The per-batch loop of `processBatches` from variant `part_004`.  The
concurrency handed to `runtWithConcurrencyLimit` is the **parameter**
`concurrencyParam` captured at the call site.  Each round records
`(concurrency current when the batch starts, concurrency actually used)`.
After a batch, `429`-rejections are added to `error429Count` and
`adjustConcurrency()` fires; a `true` in `ticks` makes the periodic timer fire
just before the batch.  -/
def runBatches_v4 (maxConcurrency concurrencyParam : ℤ) :
    List (List (SettledResult String Unit)) → List Bool → BuilderState →
    List (ℤ × ℤ) × BuilderState
  | [], _, st => ([], st)
  | b :: rest, ticks, st =>
      let st0 := if ticks.headI then adjust4St maxConcurrency st else st
      let used := concurrencyParam
      let k := count429 b
      let st1 :=
        if 0 < k then adjust4St maxConcurrency ⟨st0.concurrency, st0.error429 + k⟩
        else st0
      let r := runBatches_v4 maxConcurrency concurrencyParam rest ticks.tail st1
      ((st0.concurrency, used) :: r.1, r.2)

/-- The per-batch loop of `processBatches` from variant `part_005`.  The
concurrency handed to `runtWithConcurrencyLimit` is `this.concurrency`, read
fresh inside the loop.  -/
def runBatches_v5 (maxConcurrency : ℤ) :
    List (List (SettledResult String Unit)) → List Bool → BuilderState →
    List (ℤ × ℤ) × BuilderState
  | [], _, st => ([], st)
  | b :: rest, ticks, st =>
      let st0 := if ticks.headI then adjust5St maxConcurrency st else st
      let used := st0.concurrency
      let k := count429 b
      let st1 :=
        if 0 < k then adjust5St maxConcurrency ⟨st0.concurrency, st0.error429 + k⟩
        else st0
      let r := runBatches_v5 maxConcurrency rest ticks.tail st1
      ((st0.concurrency, used) :: r.1, r.2)

/-- Embedding of `processBatches(allTasks, concurrency)` of variant
`part_004`, as invoked
by `buildXPattern` / `buildUniverse` / `resetUniverseToBlue`:
`this.processBatches(tasks, this.concurrency)`, so the parameter is the value
of `this.concurrency` at call time.  -/
def processBatches_v4 (maxConcurrency : ℤ) (batchSize : Nat)
    (outcomes : List (SettledResult String Unit)) (ticks : List Bool)
    (st : BuilderState) : List (ℤ × ℤ) × BuilderState :=
  runBatches_v4 maxConcurrency st.concurrency (toBatches batchSize outcomes)
    ticks st

/-- Embedding of `processBatches(tasks)` of variant `part_005`.  -/
def processBatches_v5 (maxConcurrency : ℤ) (batchSize : Nat)
    (outcomes : List (SettledResult String Unit)) (ticks : List Bool)
    (st : BuilderState) : List (ℤ × ℤ) × BuilderState :=
  runBatches_v5 maxConcurrency (toBatches batchSize outcomes) ticks st

/-! ### Invariant and canonical schedules for the pool model -/

/-- The inductive invariant of a `runtWithConcurrencyLimit` run: the worker
list keeps its size; the cursor never passes the end; the `results` array
never outgrows the cursor; every index below the cursor is either already
settled with its own task's outcome or held by exactly the worker that
claimed it; no index at or beyond the cursor is settled; claimed indices are
below the cursor; and a worker only exits once the cursor has passed the
end.  -/
def poolInv {ε α : Type} (tasks : List (Except ε α)) (limit : Nat)
    (s : PoolState ε α) : Prop :=
  s.workers.length = limit
  ∧ s.cursor ≤ tasks.length
  ∧ s.results.length ≤ s.cursor
  ∧ (∀ k : Nat, k < s.cursor →
      (∃ t, tasks[k]? = some t ∧ s.results[k]? = some (some (settle t)))
      ∨ (∃ w : Nat, s.workers[w]? = some (WorkerPhase.claimed k)))
  ∧ (∀ (k : Nat) (v : SettledResult ε α), s.cursor ≤ k →
      s.results[k]? ≠ some (some v))
  ∧ (∀ w k : Nat, s.workers[w]? = some (WorkerPhase.claimed k) →
      k < s.cursor)
  ∧ (∀ w : Nat, s.workers[w]? = some WorkerPhase.done →
      tasks.length ≤ s.cursor)

/-- A canonical schedule in which worker 0 claims and settles `n` tasks in
sequence.  -/
def soloWork : Nat → List PoolEvent
  | 0 => []
  | n + 1 => PoolEvent.claim 0 :: PoolEvent.finish 0 :: soloWork n

/-- A canonical schedule in which workers `w, w+1, …, w+c−1` observe the
exhausted cursor and leave in sequence.  -/
def allLeave : Nat → Nat → List PoolEvent
  | _, 0 => []
  | w, c + 1 => PoolEvent.leave w :: allLeave (w + 1) c

/-! ### Concrete sample data for witnesses and counterexamples -/

/-- A plain client error: HTTP 400, message matching neither `429` nor any
5xx pattern.  -/
def err400 : JsError :=
  ⟨"createPolyanet failed (400): bad request", 400, .absent⟩

/-- A rate-limit error (HTTP 429) whose `headers.get` throws when read.  -/
def err429throws : JsError :=
  ⟨"createPolyanet failed (429): too many requests", 429, .getThrows⟩

/-- A fixed retry environment for concrete runs: every date parses to `0`,
`Date.now()` is `0`, and the jitter draw is `1`.  -/
def env0 : RetryEnv := ⟨fun _ => 0, fun _ => 0, fun _ => 1⟩

/-! ## Theorems -/

/-! ### C2 — `adjustConcurrency` step behaviour -/

/-- Claim C2. One `adjustConcurrency` step with a throttling-error count of zero
sets the concurrency to `min(concurrency + 1, maxConcurrency)` — an increase
by exactly 1 when below the cap, never exceeding `maxConcurrency`; one step
with error count `k ≥ 1` decreases it by `min(k, concurrency − 1)`, never
going below 1; in all cases the error counter is reset to 0.  Both builder
variants (`part_004` and `part_005`) are covered.  -/
theorem adjustConcurrency_step_spec (maxC c k : ℤ) (hc : 1 ≤ c) (hk : 1 ≤ k) :
    ((adjustConcurrency_v4 maxC c 0).1 = min (c + 1) maxC
      ∧ (adjustConcurrency_v5 maxC c 0).1 = min (c + 1) maxC
      ∧ (c < maxC → (adjustConcurrency_v4 maxC c 0).1 = c + 1)
      ∧ (adjustConcurrency_v4 maxC c 0).1 ≤ maxC)
    ∧ ((adjustConcurrency_v4 maxC c k).1 = c - min k (c - 1)
      ∧ (adjustConcurrency_v5 maxC c k).1 = c - min k (c - 1)
      ∧ 1 ≤ (adjustConcurrency_v4 maxC c k).1
      ∧ 1 ≤ (adjustConcurrency_v5 maxC c k).1)
    ∧ ((adjustConcurrency_v4 maxC c 0).2 = 0
      ∧ (adjustConcurrency_v5 maxC c 0).2 = 0
      ∧ (adjustConcurrency_v4 maxC c k).2 = 0
      ∧ (adjustConcurrency_v5 maxC c k).2 = 0) := by
  have hk0 : ¬ k = 0 := by omega
  simp only [adjustConcurrency_v4, adjustConcurrency_v5, if_pos rfl, hk0,
    if_false, if_true, reduceIte]
  refine ⟨⟨?_, ?_, ?_, ?_⟩, ⟨?_, ?_, ?_, ?_⟩, ?_, ?_, ?_, ?_⟩ <;>
    first | trivial | omega

/-- Witness for C2 at `maxConcurrency = 10`, `concurrency = 3`, `k = 2`.  -/
theorem adjustConcurrency_step_spec_witness :
    (adjustConcurrency_v4 10 3 0).1 = 4 ∧ (adjustConcurrency_v5 10 3 0).1 = 4
      ∧ (adjustConcurrency_v4 10 3 2).1 = 1
      ∧ (adjustConcurrency_v5 10 3 2).1 = 1
      ∧ (adjustConcurrency_v4 10 3 2).2 = 0 := by
  have h := adjustConcurrency_step_spec 10 3 2 (by norm_num) (by norm_num)
  norm_num at h
  exact ⟨h.1.1, h.1.2.1, by omega, by omega, h.2.2.2.2.1⟩

/-! ### C9 — the two downward adjustments agree -/

/-- Claim C9. For every concurrency `c ≥ 1` and throttling count `k ≥ 1`, the
decrease rule of variant `part_004` (`max(1, c − min(k, c−1))`) and the
decrease rule of variant `part_005` (`max(1, c − k)`) produce the same new
concurrency, whatever each variant's `maxConcurrency` is: the two downward
adjustments are extensionally equal.  -/
theorem adjustConcurrency_decrease_equiv (maxA maxB c k : ℤ) (hc : 1 ≤ c)
    (hk : 1 ≤ k) :
    (adjustConcurrency_v4 maxA c k).1 = (adjustConcurrency_v5 maxB c k).1 := by
  have hk0 : ¬ k = 0 := by omega
  simp only [adjustConcurrency_v4, adjustConcurrency_v5, hk0, if_false,
    reduceIte]
  omega

/-- Witness for C9 at `c = 3`, `k = 7` (error count exceeding `c − 1`).  -/
theorem adjustConcurrency_decrease_equiv_witness :
    (adjustConcurrency_v4 10 3 7).1 = (adjustConcurrency_v5 8 3 7).1 :=
  adjustConcurrency_decrease_equiv 10 8 3 7 (by norm_num) (by norm_num)

/-! ### Helper: a `retry` run in which every attempt fails retryably -/

/-- If every invocation of `fn` fails and the predicate accepts every one of
those errors, the loop entered at failure count `attempt ≤ retries` performs
`retries + 1 − attempt` further invocations, sleeps before each one except the
first, and rethrows the error of the final invocation.  -/
theorem retryFrom_fail (env : RetryEnv) {α : Type}
    (fn : Nat → Except JsError α) (errs : Nat → JsError)
    (hfail : ∀ k, fn k = .error (errs k)) (sR : JsError → Bool)
    (hsR : ∀ k, sR (errs k) = true) (factor minT maxT : ℚ) (jitter : Bool)
    (retries : Nat) :
    ∀ n attempt, retries - attempt = n → attempt ≤ retries →
      (retryFrom env fn retries factor minT maxT jitter sR attempt).result
          = .error (errs retries)
      ∧ (retryFrom env fn retries factor minT maxT jitter sR attempt).calls
          = retries + 1 - attempt
      ∧ (retryFrom env fn retries factor minT maxT jitter sR
          attempt).sleeps.length = retries - attempt := by
  intro n
  induction n with
  | zero =>
      intro attempt h1 h2
      have ha : attempt = retries := by omega
      subst ha
      rw [retryFrom.eq_def, hfail attempt]
      simp only [hsR attempt]
      simp
  | succ n ih =>
      intro attempt h1 h2
      have hlt : attempt < retries := by omega
      obtain ⟨ih1, ih2, ih3⟩ := ih (attempt + 1) (by omega) (by omega)
      rw [retryFrom.eq_def, hfail attempt]
      simp only [hsR attempt, Bool.true_eq_false, or_false]
      rw [dif_neg (by omega : ¬ retries < attempt + 1)]
      refine ⟨ih1, ?_, ?_⟩
      · simp only [ih2]; omega
      · simp only [List.length_cons, ih3]; omega

/-! ### C6 — retry termination: 1 initial attempt + `retries` retries -/

/-- Claim C6. For every operation that fails on every invocation with an error
the retry predicate accepts, `retry` with `retries = 2` invokes the operation
exactly 3 times (1 initial attempt plus 2 retries), sleeps exactly 2 times
(before each retry, never after the final failure), and rethrows the error of
the final (third) invocation — the last-seen error.  -/
theorem retry_exhausts_three_calls (env : RetryEnv) {α : Type}
    (fn : Nat → Except JsError α) (errs : Nat → JsError)
    (hfail : ∀ k, fn k = .error (errs k)) (sR : JsError → Bool)
    (hsR : ∀ k, sR (errs k) = true) (factor minT maxT : ℚ) (jitter : Bool) :
    (retryModel env fn 2 factor minT maxT jitter sR).calls = 3
    ∧ (retryModel env fn 2 factor minT maxT jitter sR).sleeps.length = 2
    ∧ (retryModel env fn 2 factor minT maxT jitter sR).result
        = .error (errs 2) := by
  obtain ⟨h1, h2, h3⟩ := retryFrom_fail env fn errs hfail sR hsR factor minT
    maxT jitter 2 2 0 rfl (by omega)
  exact ⟨h2, h3, h1⟩

/-- Witness for C6: a concrete always-failing operation (constantly
`err400`), accepted by the constant-true predicate.  -/
theorem retry_exhausts_three_calls_witness :
    (retryModel env0 (fun _ => Except.error (α := Unit) err400) 2 2 1000 30000
      false defaultShouldRetry).calls = 3
    ∧ (retryModel env0 (fun _ => Except.error (α := Unit) err400) 2 2 1000
      30000 false defaultShouldRetry).sleeps.length = 2
    ∧ (retryModel env0 (fun _ => Except.error (α := Unit) err400) 2 2 1000
      30000 false defaultShouldRetry).result = .error err400 :=
  retry_exhausts_three_calls env0 (fun _ => Except.error err400)
    (fun _ => err400) (fun _ => rfl) defaultShouldRetry (fun _ => rfl)
    2 1000 30000 false

/-! ### C3 — what the default `shouldRetry` actually classifies -/

/-- Claim C3, counterexample.  `err400` has HTTP status 400 — neither 429 nor
any 5xx — yet `retry` with no custom `shouldRetry` does *not* propagate it
after the first attempt: with `retries = 2` it invokes the operation 3 times
and sleeps twice.  This refutes the claim that, absent a custom predicate,
`retry` classifies exactly 429/5xx as retryable and rethrows everything else
immediately without sleeping or retrying.  -/
theorem retry_default_pred_counterexample :
    err400.status ≠ 429
    ∧ ¬ (500 ≤ err400.status ∧ err400.status ≤ 599)
    ∧ (retryModel env0 (fun _ => Except.error (α := Unit) err400) 2 2 1000
        30000 false defaultShouldRetry).calls = 3
    ∧ (retryModel env0 (fun _ => Except.error (α := Unit) err400) 2 2 1000
        30000 false defaultShouldRetry).sleeps.length = 2
    ∧ (3 : Nat) ≠ 1 ∧ (2 : Nat) ≠ 0 := by
  obtain ⟨h1, h2, h3⟩ := retryFrom_fail env0
    (fun _ => Except.error (α := Unit) err400) (fun _ => err400)
    (fun _ => rfl) defaultShouldRetry (fun _ => rfl) 2 1000 30000 false 2 2 0
    rfl (by omega)
  exact ⟨by norm_num [err400], by norm_num [err400], h2, h3, by norm_num,
    by norm_num⟩

/-- Claim C3, amended.  When the caller supplies no custom `shouldRetry`, the
default predicate is the constant-true function: `retry` treats *every*
error as retryable — regardless of HTTP status — and keeps retrying until the
retry budget is exhausted (`retries + 1` invocations for an always-failing
operation).  The 429/5xx classification is supplied by the caller
(`MegaverseBuilder.makeRetryOpts`), not by `retry`'s default.  -/
theorem retry_default_pred_retries_every_error :
    (∀ e : JsError, defaultShouldRetry e = true)
    ∧ ∀ {α : Type} (env : RetryEnv) (fn : Nat → Except JsError α)
        (errs : Nat → JsError) (retries : Nat) (factor minT maxT : ℚ)
        (jitter : Bool), (∀ k, fn k = .error (errs k)) →
        (retryModel env fn retries factor minT maxT jitter
          defaultShouldRetry).calls = retries + 1 := by
  refine ⟨fun _ => rfl, ?_⟩
  intro α env fn errs retries factor minT maxT jitter hfail
  obtain ⟨-, h2, -⟩ := retryFrom_fail env fn errs hfail defaultShouldRetry
    (fun _ => rfl) factor minT maxT jitter retries (retries - 0) 0 rfl
    (by omega)
  simpa using h2

/-- Witness for the amended C3: the constant-`err400` operation with
`retries = 2` is invoked 3 times under the default predicate.  -/
theorem retry_default_pred_retries_every_error_witness :
    defaultShouldRetry err400 = true
    ∧ (retryModel env0 (fun _ => Except.error (α := Unit) err400) 2 2 1000
        30000 false defaultShouldRetry).calls = 2 + 1 :=
  ⟨retry_default_pred_retries_every_error.1 err400,
   retry_default_pred_retries_every_error.2 env0
     (fun _ => Except.error err400) (fun _ => err400) 2 2 1000 30000 false
     (fun _ => rfl)⟩

/-! ### C7 — fallback delay when the retry-after header read throws -/

/-- Helper: with jitter disabled, for a 429 error whose header read throws,
`calculateDelay` returns `min(min(base, maxTimeout) * 2, maxTimeout)`.  -/
theorem calculateDelay_getThrows_eq (parseDate : String → ℤ) (now : ℤ)
    (attempt : Nat) (err : JsError) (factor minT maxT jf : ℚ)
    (h429 : includes429 err.message = true)
    (hthrow : err.headers = HeaderSource.getThrows) :
    calculateDelay parseDate now attempt err factor minT maxT false jf
      = min (min (minT * factor ^ (attempt - 1)) maxT * 2) maxT := by
  obtain ⟨msg, st, hd⟩ := err
  simp only at hthrow
  subst hthrow
  simp only at h429
  simp [calculateDelay, getDelayFromHeaders, h429]

/-- Claim C7, counterexample.  For a 429 error whose header read throws, at
`attempt = 1` with `minTimeout = 1000`, `factor = 2`, `maxTimeout = 30000`
and jitter disabled, the computed delay is `2000` — the *doubled* (and
re-capped) base — not the uncapped base `1000 · 2⁰ = 1000` the claim
prescribes.  -/
theorem calculateDelay_throw_counterexample :
    calculateDelay (fun _ => 0) 0 1 err429throws 2 1000 30000 false 1 = 2000
    ∧ (1000 : ℚ) * 2 ^ (1 - 1) = 1000
    ∧ (2000 : ℚ) ≠ 1000 := by
  have h := calculateDelay_getThrows_eq (fun _ => 0) 0 1 err429throws 2
    1000 30000 1 (by decide) rfl
  norm_num at h
  exact ⟨h, by norm_num, by norm_num⟩

/-- Claim C7, amended.  When computing the retry delay for a rate-limit (429)
error whose retry-after header read throws, the computed (pre-jitter) delay
falls back to the doubled capped base, capped once more at `maxTimeout`:
`min(2 · min(minTimeout · factor^(attempt−1), maxTimeout), maxTimeout)` —
`getDelayFromHeaders` catches the throw, logs a warning and returns its
`defaultDelay` argument, which `calculateDelay` passed as twice the already
capped base.  -/
theorem calculateDelay_throw_fallback (parseDate : String → ℤ) (now : ℤ)
    (attempt : Nat) (err : JsError) (factor minT maxT jf : ℚ)
    (h429 : includes429 err.message = true)
    (hthrow : err.headers = HeaderSource.getThrows) :
    calculateDelay parseDate now attempt err factor minT maxT false jf
      = min (min (minT * factor ^ (attempt - 1)) maxT * 2) maxT :=
  calculateDelay_getThrows_eq parseDate now attempt err factor minT maxT jf
    h429 hthrow

/-- Witness for the amended C7 at the concrete 429-with-throwing-headers
error and `attempt = 1`, `factor = 2`, `minTimeout = 1000`,
`maxTimeout = 30000`.  -/
theorem calculateDelay_throw_fallback_witness :
    includes429 err429throws.message = true
    ∧ err429throws.headers = HeaderSource.getThrows
    ∧ calculateDelay (fun _ => 0) 0 1 err429throws 2 1000 30000 false 1
        = 2000 := by
  have h429 : includes429 err429throws.message = true := by decide
  have h := calculateDelay_throw_fallback (fun _ => 0) 0 1 err429throws 2
    1000 30000 1 h429 rfl
  norm_num at h
  exact ⟨h429, rfl, h⟩

/-! ### C5 — which concurrency level each batch runs at -/

/-- Claim C5.  Evaluation of both schedulers on the failing input: two batches
(`batchSize = 1`), the first rejecting with a 429, starting from
`concurrency = 3` with no periodic tick.  Variant `part_005` runs the second
batch at the adjusted level `2` (fresh read), but variant `part_004` runs
*every* batch at the captured parameter `3`, even though the post-batch
trigger lowered `this.concurrency` to `2` — contradicting the claim and the
variant's own comment (`reduce concurrency for next batch`).  Each recorded
pair is `(concurrency current at batch start, concurrency used)`.  -/
theorem processBatches_stale_concurrency_bug :
    (processBatches_v4 10 1
        [SettledResult.rejected "createPolyanet failed (429): too many requests",
         SettledResult.fulfilled ()] [false, false] ⟨3, 0⟩).1
      = [(3, 3), (2, 3)]
    ∧ (processBatches_v5 8 1
        [SettledResult.rejected "createPolyanet failed (429): too many requests",
         SettledResult.fulfilled ()] [false, false] ⟨3, 0⟩).1
      = [(3, 3), (2, 2)]
    ∧ ¬ ∀ p ∈ (processBatches_v4 10 1
        [SettledResult.rejected "createPolyanet failed (429): too many requests",
         SettledResult.fulfilled ()] [false, false] ⟨3, 0⟩).1, p.1 = p.2 := by
  have hb : toBatches 1
      [SettledResult.rejected (α := Unit)
        "createPolyanet failed (429): too many requests",
       SettledResult.fulfilled ()] = 
      [[SettledResult.rejected "createPolyanet failed (429): too many requests"],
       [SettledResult.fulfilled ()]] := by
    rw [toBatches]
    norm_num
    rw [toBatches]
    norm_num
    rw [toBatches]
  refine ⟨?_, ?_, ?_⟩ <;>
    simp only [processBatches_v4, processBatches_v5, hb] <;> decide

/-! ### Pool model: array-write characterisation and invariant lemmas -/

/-- Full characterisation of a JavaScript array assignment: the written index
holds the value; indices inside the old array are untouched; padding indices
become holes; everything past the written index stays out of range.  -/
theorem jsSet_getElem? {β : Type} (l : List (Option β)) (k : Nat) (v : β)
    (j : Nat) :
    (jsSet l k v)[j]? =
      if j = k then some (some v)
      else if j < l.length then l[j]?
      else if j < k then some none
      else none := by
  unfold jsSet
  by_cases hk : k < l.length
  · rw [if_pos hk]
    by_cases hjk : j = k
    · subst hjk
      rw [if_pos rfl, List.getElem?_set_self hk]
    · rw [List.getElem?_set_ne (Ne.symm hjk), if_neg hjk]
      by_cases hjl : j < l.length
      · rw [if_pos hjl]
      · rw [if_neg hjl, if_neg (by omega), List.getElem?_eq_none]
        omega
  · rw [if_neg hk]
    have hlen2 : (l ++ List.replicate (k - l.length) none).length = k := by
      simp only [List.length_append, List.length_replicate]
      omega
    by_cases hjk : j = k
    · subst hjk
      rw [if_pos rfl, List.getElem?_append_right (by omega), hlen2]
      simp
    · rw [if_neg hjk]
      by_cases hjl : j < l.length
      · rw [if_pos hjl, List.getElem?_append_left (by omega),
          List.getElem?_append_left hjl]
      · rw [if_neg hjl]
        by_cases hjk2 : j < k
        · rw [if_pos hjk2, List.getElem?_append_left (by omega),
            List.getElem?_append_right (by omega)]
          simp only [List.getElem?_replicate]
          rw [if_pos (by omega)]
        · rw [if_neg hjk2, List.getElem?_eq_none]
          simp only [List.length_append, List.length_replicate,
            List.length_cons, List.length_nil]
          omega

/-- Length of a JavaScript array after an assignment.  -/
theorem jsSet_length {β : Type} (l : List (Option β)) (k : Nat) (v : β) :
    (jsSet l k v).length = max l.length (k + 1) := by
  unfold jsSet
  split_ifs with h
  · rw [List.length_set]
    omega
  · simp only [List.length_append, List.length_replicate, List.length_cons,
      List.length_nil]
    omega

/-- Helper: an in-range `getElem?` witness bounds the index.  -/
theorem getElem?_lt_length {β : Type} (l : List β) (n : Nat) (a : β)
    (h : l[n]? = some a) : n < l.length := by
  rcases List.getElem?_eq_some.mp h with ⟨h1, _⟩
  exact h1

/-- The pool invariant holds initially.  -/
theorem poolInv_init {ε α : Type} (tasks : List (Except ε α)) (limit : Nat) :
    poolInv tasks limit (poolInit limit) := by
  refine ⟨by simp [poolInit], by simp [poolInit], by simp [poolInit],
    ?_, ?_, ?_, ?_⟩
  · intro k hk
    simp [poolInit] at hk
  · intro k v _ hcon
    simp [poolInit] at hcon
  · intro w k hcon
    simp only [poolInit, List.getElem?_replicate] at hcon
    split at hcon
    · cases hcon
    · cases hcon
  · intro w hcon
    simp only [poolInit, List.getElem?_replicate] at hcon
    split at hcon
    · cases hcon
    · cases hcon

/-- The pool invariant is preserved by every enabled event.  -/
theorem poolInv_step {ε α : Type} (tasks : List (Except ε α)) (limit : Nat)
    (s s' : PoolState ε α) (e : PoolEvent) (hinv : poolInv tasks limit s)
    (hstep : poolStep tasks s e = some s') : poolInv tasks limit s' := by
  obtain ⟨h1, h2, h3, h4, h5, h6, h7⟩ := hinv
  cases e with
  | claim w =>
      simp only [poolStep] at hstep
      split at hstep
      · rename_i heq
        split at hstep
        · rename_i hc
          obtain rfl := Option.some.inj hstep
          simp only [poolInv]
          have hwlen : w < s.workers.length :=
            getElem?_lt_length _ _ _ heq
          refine ⟨by simpa using h1, by omega, by omega, ?_, ?_, ?_, ?_⟩
          · intro k hk
            rcases Nat.lt_succ_iff_lt_or_eq.mp hk with hk' | rfl
            · rcases h4 k hk' with hL | ⟨w', hw'⟩
              · exact Or.inl hL
              · refine Or.inr ⟨w', ?_⟩
                have hww : w ≠ w' := by
                  intro hEq
                  rw [← hEq, heq] at hw'
                  cases hw'
                rwa [List.getElem?_set_ne hww]
            · exact Or.inr ⟨w, by rw [List.getElem?_set_self hwlen]⟩
          · intro k v hk
            exact h5 k v (by omega)
          · intro w' k hw'
            by_cases hww : w = w'
            · subst hww
              rw [List.getElem?_set_self hwlen] at hw'
              have hk' := WorkerPhase.claimed.inj (Option.some.inj hw')
              omega
            · rw [List.getElem?_set_ne hww] at hw'
              have := h6 w' k hw'
              omega
          · intro w' hw'
            by_cases hww : w = w'
            · subst hww
              rw [List.getElem?_set_self hwlen] at hw'
              cases Option.some.inj hw'
            · rw [List.getElem?_set_ne hww] at hw'
              have := h7 w' hw'
              omega
        · cases hstep
      · cases hstep
  | finish w =>
      simp only [poolStep] at hstep
      split at hstep
      · rename_i k0 heq
        split at hstep
        · rename_i t heq2
          obtain rfl := Option.some.inj hstep
          simp only [poolInv]
          have hwlen : w < s.workers.length :=
            getElem?_lt_length _ _ _ heq
          have hk0 : k0 < s.cursor := h6 w k0 heq
          refine ⟨by simpa using h1, by omega, ?_, ?_, ?_, ?_, ?_⟩
          · simp only [jsSet_length]
            omega
          · intro k hk
            by_cases hkk : k = k0
            · subst hkk
              refine Or.inl ⟨t, heq2, ?_⟩
              rw [jsSet_getElem?, if_pos rfl]
            · rcases h4 k hk with ⟨t', ht', hres⟩ | ⟨w', hw'⟩
              · refine Or.inl ⟨t', ht', ?_⟩
                have hklen : k < s.results.length :=
                  getElem?_lt_length _ _ _ hres
                rw [jsSet_getElem?, if_neg hkk, if_pos hklen]
                exact hres
              · by_cases hww : w = w'
                · subst hww
                  rw [heq] at hw'
                  have hkeq := WorkerPhase.claimed.inj (Option.some.inj hw')
                  exact absurd hkeq.symm hkk
                · refine Or.inr ⟨w', ?_⟩
                  rwa [List.getElem?_set_ne hww]
          · intro k v hk
            have hkk : ¬ k = k0 := by omega
            have hklen : ¬ k < s.results.length := by omega
            rw [jsSet_getElem?, if_neg hkk, if_neg hklen,
              if_neg (by omega)]
            simp
          · intro w' k hw'
            by_cases hww : w = w'
            · subst hww
              rw [List.getElem?_set_self hwlen] at hw'
              cases Option.some.inj hw'
            · rw [List.getElem?_set_ne hww] at hw'
              exact h6 w' k hw'
          · intro w' hw'
            by_cases hww : w = w'
            · subst hww
              rw [List.getElem?_set_self hwlen] at hw'
              cases Option.some.inj hw'
            · rw [List.getElem?_set_ne hww] at hw'
              exact h7 w' hw'
        · cases hstep
      · cases hstep
  | leave w =>
      simp only [poolStep] at hstep
      split at hstep
      · rename_i heq
        split at hstep
        · rename_i hc
          obtain rfl := Option.some.inj hstep
          simp only [poolInv]
          have hwlen : w < s.workers.length :=
            getElem?_lt_length _ _ _ heq
          refine ⟨by simpa using h1, h2, h3, ?_, h5, ?_, ?_⟩
          · intro k hk
            rcases h4 k hk with hL | ⟨w', hw'⟩
            · exact Or.inl hL
            · have hww : w ≠ w' := by
                intro hEq
                rw [← hEq, heq] at hw'
                cases hw'
              exact Or.inr ⟨w', by rwa [List.getElem?_set_ne hww]⟩
          · intro w' k hw'
            by_cases hww : w = w'
            · subst hww
              rw [List.getElem?_set_self hwlen] at hw'
              cases Option.some.inj hw'
            · rw [List.getElem?_set_ne hww] at hw'
              exact h6 w' k hw'
          · intro w' hw'
            by_cases hww : w = w'
            · exact hc
            · rw [List.getElem?_set_ne hww] at hw'
              exact h7 w' hw'
        · cases hstep
      · cases hstep

/-- The invariant is preserved along any event trace.  -/
theorem poolInv_run {ε α : Type} (tasks : List (Except ε α)) (limit : Nat) :
    ∀ (evs : List PoolEvent) (s s' : PoolState ε α), poolInv tasks limit s →
      poolRun tasks s evs = some s' → poolInv tasks limit s' := by
  intro evs
  induction evs with
  | nil =>
      intro s s' hinv hrun
      obtain rfl := Option.some.inj hrun
      exact hinv
  | cons e es ih =>
      intro s s' hinv hrun
      simp only [poolRun] at hrun
      split at hrun
      · rename_i s1 hstep
        exact ih s1 s' (poolInv_step tasks limit s s1 e hinv hstep) hrun
      · cases hrun

/-- In a terminal state of a pool with at least one worker, the results array
is exactly the input tasks' settled outcomes, in input order.  -/
theorem poolInv_done_results {ε α : Type} (tasks : List (Except ε α))
    (limit : Nat) (s : PoolState ε α) (hlim : 1 ≤ limit)
    (hinv : poolInv tasks limit s) (hdone : poolDone s) :
    s.results = tasks.map (fun t => some (settle t)) := by
  obtain ⟨h1, h2, h3, h4, h5, h6, h7⟩ := hinv
  have hw0 : ∃ p, s.workers[0]? = some p := by
    have : 0 < s.workers.length := by omega
    exact ⟨s.workers[0], List.getElem?_eq_some.mpr ⟨this, rfl⟩⟩
  obtain ⟨p, hp⟩ := hw0
  have hpd : p = WorkerPhase.done := hdone p (List.getElem?_mem hp)
  subst hpd
  have hcur : s.cursor = tasks.length := by
    have := h7 0 hp
    omega
  have hnoclaim : ∀ w k : Nat,
      s.workers[w]? ≠ some (WorkerPhase.claimed k) := by
    intro w k hcon
    have := hdone _ (List.getElem?_mem hcon)
    cases this
  refine List.ext_getElem? ?_
  intro n
  by_cases hn : n < tasks.length
  · rcases h4 n (by omega) with ⟨t, ht, hres⟩ | ⟨w, hw⟩
    · rw [hres, List.getElem?_map, ht]
      rfl
    · exact absurd hw (hnoclaim w n)
  · rw [List.getElem?_eq_none (by omega), List.getElem?_eq_none]
    simpa using by omega

/-- Traces compose.  -/
theorem poolRun_append {ε α : Type} (tasks : List (Except ε α)) :
    ∀ (a b : List PoolEvent) (s : PoolState ε α),
      poolRun tasks s (a ++ b)
        = (poolRun tasks s a).bind (fun s' => poolRun tasks s' b) := by
  intro a
  induction a with
  | nil => intro b s; rfl
  | cons e es ih =>
      intro b s
      simp only [List.cons_append, poolRun]
      cases poolStep tasks s e with
      | none => rfl
      | some s1 => exact ih b s1

/-- Worker 0, starting idle at cursor `j` with `n` tasks left, can claim and
settle all of them by itself.  -/
theorem soloWork_reaches {ε α : Type} (tasks : List (Except ε α)) :
    ∀ (n j : Nat) (res : List (Option (SettledResult ε α)))
      (ws : List WorkerPhase), j + n = tasks.length →
      ∃ res', poolRun tasks ⟨j, res, WorkerPhase.idle :: ws⟩ (soloWork n)
        = some ⟨tasks.length, res', WorkerPhase.idle :: ws⟩ := by
  intro n
  induction n with
  | zero =>
      intro j res ws hj
      have hje : j = tasks.length := by omega
      subst hje
      exact ⟨res, rfl⟩
  | succ n ih =>
      intro j res ws hj
      have hjlt : j < tasks.length := by omega
      obtain ⟨t, ht⟩ : ∃ t, tasks[j]? = some t :=
        ⟨tasks[j], List.getElem?_eq_some.mpr ⟨hjlt, rfl⟩⟩
      obtain ⟨res', hres'⟩ := ih (j + 1) (jsSet res j (settle t)) ws (by omega)
      refine ⟨res', ?_⟩
      simp only [soloWork, poolRun, poolStep, List.getElem?_cons_zero,
        if_pos hjlt, List.set_cons_zero, ht]
      exact hres'

/-- Setting the element just past a prefix.  -/
theorem set_append_length {β : Type} :
    ∀ (l1 : List β) (p : β) (rest : List β) (a : β),
      (l1 ++ p :: rest).set l1.length a = l1 ++ a :: rest := by
  intro l1
  induction l1 with
  | nil => intro p rest a; rfl
  | cons x xs ih =>
      intro p rest a
      simp only [List.cons_append, List.length_cons, List.set_cons_succ]
      rw [ih]

/-- From a state whose cursor has passed the end, all still-idle workers
`ws2` (sitting after a prefix `ws1`) can leave one after the other.  -/
theorem allLeave_reaches {ε α : Type} (tasks : List (Except ε α)) (cs : Nat)
    (res : List (Option (SettledResult ε α))) (hcs : tasks.length ≤ cs) :
    ∀ (ws2 ws1 : List WorkerPhase), (∀ p ∈ ws2, p = WorkerPhase.idle) →
      poolRun tasks ⟨cs, res, ws1 ++ ws2⟩ (allLeave ws1.length ws2.length)
        = some ⟨cs, res, ws1 ++ List.replicate ws2.length WorkerPhase.done⟩ := by
  intro ws2
  induction ws2 with
  | nil =>
      intro ws1 _
      simp [allLeave, poolRun]
  | cons p rest ih =>
      intro ws1 hall
      have hp : p = WorkerPhase.idle := hall p (List.mem_cons_self p rest)
      subst hp
      simp only [List.length_cons, allLeave, poolRun, poolStep]
      rw [List.getElem?_append_right (le_refl _), Nat.sub_self,
        List.getElem?_cons_zero]
      rw [if_pos hcs]
      rw [set_append_length]
      have hih := ih (ws1 ++ [WorkerPhase.done])
        (fun q hq => hall q (List.mem_cons_of_mem _ hq))
      simp only [List.length_append, List.length_cons, List.length_nil,
        List.append_assoc, List.singleton_append] at hih
      simp only [List.replicate_succ]
      exact hih

/-- With at least one worker, some cooperative schedule drives the pool to a
terminal (all-workers-exited) state: `runtWithConcurrencyLimit` can return.  -/
theorem pool_done_exists {ε α : Type} (tasks : List (Except ε α))
    (limit : Nat) (hlim : 1 ≤ limit) :
    ∃ (evs : List PoolEvent) (s : PoolState ε α),
      poolRun tasks (poolInit limit) evs = some s ∧ poolDone s := by
  obtain ⟨l, rfl⟩ : ∃ l, limit = l + 1 := ⟨limit - 1, by omega⟩
  obtain ⟨res', hsolo⟩ := soloWork_reaches tasks tasks.length 0 []
    (List.replicate l WorkerPhase.idle) (by omega)
  have hleave := allLeave_reaches tasks tasks.length res' (le_refl _)
    (WorkerPhase.idle :: List.replicate l WorkerPhase.idle) []
    (by
      intro p hp
      rcases List.mem_cons.mp hp with rfl | hp'
      · rfl
      · exact List.eq_of_mem_replicate hp')
  refine ⟨soloWork tasks.length
      ++ allLeave 0 (WorkerPhase.idle :: List.replicate l WorkerPhase.idle).length,
    ⟨tasks.length, res',
      List.replicate (WorkerPhase.idle :: List.replicate l WorkerPhase.idle).length
        WorkerPhase.done⟩, ?_, ?_⟩
  · rw [poolRun_append]
    have hinit : poolInit (ε := ε) (α := α) (l + 1)
        = ⟨0, [], WorkerPhase.idle :: List.replicate l WorkerPhase.idle⟩ := by
      simp [poolInit, List.replicate_succ]
    rw [hinit, hsolo]
    simpa using hleave
  · intro p hp
    exact List.eq_of_mem_replicate hp

/-! ### C1 — exactly N positionally aligned settled results -/

/-- Claim C1.  For every task list and every concurrency limit ≥ 1: whenever a
cooperative run of `runtWithConcurrencyLimit` reaches the point where
`Promise.all(runners)` has resolved — regardless of the interleaving, i.e. of
the order in which workers complete tasks — the returned `results` array has
exactly `tasks.length` entries, and the entry at index `k` is exactly task
`k`'s settled outcome (fulfilled with its value or rejected with its reason).
Moreover some schedule does complete, so the function can return.  -/
theorem runtWithConcurrencyLimit_positional {ε α : Type}
    (tasks : List (Except ε α)) (limit : Nat) (hlim : 1 ≤ limit) :
    (∀ (evs : List PoolEvent) (s : PoolState ε α),
      poolRun tasks (poolInit limit) evs = some s → poolDone s →
        s.results = tasks.map (fun t => some (settle t))
        ∧ s.results.length = tasks.length)
    ∧ ∃ (evs : List PoolEvent) (s : PoolState ε α),
        poolRun tasks (poolInit limit) evs = some s ∧ poolDone s := by
  constructor
  · intro evs s hrun hdone
    have hinv := poolInv_run tasks limit evs (poolInit limit) s
      (poolInv_init tasks limit) hrun
    have hres := poolInv_done_results tasks limit s hlim hinv hdone
    exact ⟨hres, by rw [hres]; simp⟩
  · exact pool_done_exists tasks limit hlim

/-- Witness for C1: a 2-task list at limit 1; the concrete schedule settles
both tasks and leaves, and the final results equal the settled map.  -/
theorem runtWithConcurrencyLimit_positional_witness :
    poolRun [Except.ok (ε := String) 10, Except.error "boom"] (poolInit 1)
        [PoolEvent.claim 0, PoolEvent.finish 0, PoolEvent.claim 0,
         PoolEvent.finish 0, PoolEvent.leave 0]
      = some ⟨2, [some (SettledResult.fulfilled 10),
          some (SettledResult.rejected "boom")], [WorkerPhase.done]⟩
    ∧ [some (SettledResult.fulfilled 10),
        some (SettledResult.rejected "boom")]
      = [Except.ok (ε := String) 10, Except.error "boom"].map
          (fun t => some (settle t)) := by
  refine ⟨by decide, ?_⟩
  have h := (runtWithConcurrencyLimit_positional
    [Except.ok (ε := String) 10, Except.error "boom"] 1 (by norm_num)).1
    [PoolEvent.claim 0, PoolEvent.finish 0, PoolEvent.claim 0,
     PoolEvent.finish 0, PoolEvent.leave 0]
    ⟨2, [some (SettledResult.fulfilled 10),
      some (SettledResult.rejected "boom")], [WorkerPhase.done]⟩
    (by decide) (by decide)
  exact h.1

/-! ### C8 — per-task isolation of failures -/

/-- Claim C8.  In every completed pool run, each task that succeeds is recorded
`fulfilled` with its value at its own index and each task that throws is
recorded `rejected` with its reason at its own index — one task's failure
never prevents any other task from being executed and recorded.  In
particular the task list `[ok 1, throws "test error", ok 2]` at concurrency 2
always yields `[fulfilled 1, rejected "test error", fulfilled 2]`.  -/
theorem pool_isolation :
    (∀ {ε α : Type} (tasks : List (Except ε α)) (limit : Nat), 1 ≤ limit →
      ∀ (evs : List PoolEvent) (s : PoolState ε α),
        poolRun tasks (poolInit limit) evs = some s → poolDone s →
          (∀ (k : Nat) (v : α), tasks[k]? = some (Except.ok v) →
              s.results[k]? = some (some (SettledResult.fulfilled v)))
          ∧ (∀ (k : Nat) (e : ε), tasks[k]? = some (Except.error e) →
              s.results[k]? = some (some (SettledResult.rejected e))))
    ∧ (∀ (evs : List PoolEvent) (s : PoolState String Nat),
        poolRun [Except.ok 1, Except.error "test error", Except.ok 2]
          (poolInit 2) evs = some s → poolDone s →
        s.results = [some (SettledResult.fulfilled 1),
          some (SettledResult.rejected "test error"),
          some (SettledResult.fulfilled 2)]) := by
  constructor
  · intro ε α tasks limit hlim evs s hrun hdone
    have hinv := poolInv_run tasks limit evs (poolInit limit) s
      (poolInv_init tasks limit) hrun
    have hres := poolInv_done_results tasks limit s hlim hinv hdone
    constructor
    · intro k v hk
      rw [hres, List.getElem?_map, hk]
      rfl
    · intro k e hk
      rw [hres, List.getElem?_map, hk]
      rfl
  · intro evs s hrun hdone
    have hinv := poolInv_run _ 2 evs (poolInit 2) s
      (poolInv_init _ 2) hrun
    have hres := poolInv_done_results _ 2 s (by norm_num) hinv hdone
    rw [hres]
    rfl

/-- Witness for C8: a concrete out-of-order schedule at concurrency 2 — the
middle (throwing) task settles first — still produces the aligned result
list.  -/
theorem pool_isolation_witness :
    poolRun [Except.ok 1, Except.error "test error", Except.ok 2]
        (poolInit 2)
        [PoolEvent.claim 0, PoolEvent.claim 1, PoolEvent.finish 1,
         PoolEvent.finish 0, PoolEvent.claim 0, PoolEvent.finish 0,
         PoolEvent.leave 0, PoolEvent.leave 1]
      = some ⟨3, [some (SettledResult.fulfilled 1),
          some (SettledResult.rejected "test error"),
          some (SettledResult.fulfilled 2)],
          [WorkerPhase.done, WorkerPhase.done]⟩
    ∧ (PoolState.results (ε := String) (α := Nat)
        ⟨3, [some (SettledResult.fulfilled 1),
          some (SettledResult.rejected "test error"),
          some (SettledResult.fulfilled 2)],
          [WorkerPhase.done, WorkerPhase.done]⟩)
      = [some (SettledResult.fulfilled 1),
          some (SettledResult.rejected "test error"),
          some (SettledResult.fulfilled 2)] := by
  refine ⟨by decide, ?_⟩
  exact pool_isolation.2
    [PoolEvent.claim 0, PoolEvent.claim 1, PoolEvent.finish 1,
     PoolEvent.finish 0, PoolEvent.claim 0, PoolEvent.finish 0,
     PoolEvent.leave 0, PoolEvent.leave 1]
    ⟨3, [some (SettledResult.fulfilled 1),
      some (SettledResult.rejected "test error"),
      some (SettledResult.fulfilled 2)],
      [WorkerPhase.done, WorkerPhase.done]⟩
    (by decide) (by decide)

/-! ### C10 — concurrency limit 0 returns an empty result list -/

/-- Claim C10.  With `limit = 0`, `new Array(0)` spawns no workers, so no event
is ever enabled: every run stays at the initial state, which already counts
as terminal (`Promise.all([])` resolves), no task is executed (cursor 0, no
result written), and the returned `results` array is empty — so for non-empty
task lists the exactly-`len(tasks)`-results contract fails, and it holds only
under the unstated precondition `limit ≥ 1`.  -/
theorem pool_zero_limit {ε α : Type} (tasks : List (Except ε α))
    (evs : List PoolEvent) (s : PoolState ε α)
    (hrun : poolRun tasks (poolInit 0) evs = some s) :
    s = poolInit 0 ∧ s.results = [] ∧ s.workers = [] ∧ s.cursor = 0
    ∧ poolDone s
    ∧ (tasks ≠ [] → s.results.length ≠ tasks.length) := by
  have hstuck : ∀ e, poolStep tasks (poolInit (ε := ε) (α := α) 0) e
      = none := by
    intro e
    cases e <;> simp [poolStep, poolInit]
  have hs : s = poolInit 0 := by
    cases evs with
    | nil => exact (Option.some.inj hrun).symm
    | cons e es =>
        simp only [poolRun, hstuck e] at hrun
        cases hrun
  subst hs
  refine ⟨rfl, rfl, rfl, rfl, ?_, ?_⟩
  · intro p hp
    simp [poolInit] at hp
  · intro hne hcon
    have : 0 < tasks.length := List.length_pos.mpr hne
    simp [poolInit] at hcon
    omega

/-- Witness for C10: with one task and `limit = 0`, the empty run is already
complete and returns the empty results array, whose length is not 1.  -/
theorem pool_zero_limit_witness :
    (poolInit (ε := String) (α := Nat) 0).results = []
    ∧ (poolInit (ε := String) (α := Nat) 0).results.length
        ≠ [Except.ok (ε := String) (1 : Nat)].length := by
  obtain ⟨-, h2, -, -, -, h6⟩ := pool_zero_limit
    [Except.ok (ε := String) (1 : Nat)] [] (poolInit 0) rfl
  exact ⟨h2, h6 (by simp)⟩

/-! ### C4 — token count after `refill()` -/

/-- The sequential rate-limiter invariant: the last refill precedes the
caller's ready time, the tokens owed by `ready` are covered by the refill
accrued since `lastRefill`, and the count never exceeds the capacity.  -/
theorem refill_bounds_of_inv (maxT rate : ℚ) (hr : 0 < rate) (hm : 0 ≤ maxT)
    (s : RLSeq) (t : ℤ) (ht : s.ready ≤ t)
    (hinv : s.lastRefill ≤ s.ready
      ∧ 0 ≤ s.tokens + ((s.ready - s.lastRefill : ℤ) : ℚ) * rate
      ∧ s.tokens ≤ maxT) :
    0 ≤ refillTokens maxT rate s.tokens s.lastRefill t
    ∧ refillTokens maxT rate s.tokens s.lastRefill t ≤ maxT := by
  obtain ⟨h1, h2, h3⟩ := hinv
  refine ⟨?_, min_le_left _ _⟩
  refine le_min hm ?_
  have hcast : ((s.ready - s.lastRefill : ℤ) : ℚ)
      ≤ ((t - s.lastRefill : ℤ) : ℚ) := by
    exact_mod_cast sub_le_sub_right ht s.lastRefill
  nlinarith

/-- One sequential `getToken` call preserves the invariant.  -/
theorem getTokenSeq_inv (maxT rate : ℚ) (hr : 0 < rate) (hm : 0 ≤ maxT)
    (s : RLSeq) (t : ℤ) (ht : s.ready ≤ t)
    (hinv : s.lastRefill ≤ s.ready
      ∧ 0 ≤ s.tokens + ((s.ready - s.lastRefill : ℤ) : ℚ) * rate
      ∧ s.tokens ≤ maxT) :
    (getTokenSeq maxT rate s t).lastRefill ≤ (getTokenSeq maxT rate s t).ready
    ∧ 0 ≤ (getTokenSeq maxT rate s t).tokens
        + (((getTokenSeq maxT rate s t).ready
            - (getTokenSeq maxT rate s t).lastRefill : ℤ) : ℚ) * rate
    ∧ (getTokenSeq maxT rate s t).tokens ≤ maxT := by
  obtain ⟨hlow, hup⟩ := refill_bounds_of_inv maxT rate hr hm s t ht hinv
  have hg : getTokenSeq maxT rate s t
      = (if 1 ≤ refillTokens maxT rate s.tokens s.lastRefill t then
          RLSeq.mk (refillTokens maxT rate s.tokens s.lastRefill t - 1) t t
        else
          RLSeq.mk (refillTokens maxT rate s.tokens s.lastRefill t - 1) t
            (t + ⌈(1 - refillTokens maxT rate s.tokens s.lastRefill t)
              / rate⌉)) := rfl
  rw [hg]
  set tk := refillTokens maxT rate s.tokens s.lastRefill t with htk
  split_ifs with h1
  · refine ⟨?_, ?_, ?_⟩ <;> dsimp only
    · exact le_refl t
    · simp only [sub_self, Int.cast_zero, zero_mul, add_zero]
      linarith
    · linarith
  · have htk1 : tk < 1 := by linarith
    have hw : (1 - tk) / rate ≤ (⌈(1 - tk) / rate⌉ : ℚ) := Int.le_ceil _
    have hwr : 1 - tk ≤ (⌈(1 - tk) / rate⌉ : ℚ) * rate := by
      rw [div_le_iff₀ hr] at hw
      linarith
    have hwpos : (0 : ℤ) ≤ ⌈(1 - tk) / rate⌉ := by
      have : (0 : ℚ) < (1 - tk) / rate := div_pos (by linarith) hr
      have := Int.ceil_pos.mpr this
      omega
    have hsub : ((t + ⌈(1 - tk) / rate⌉ - t : ℤ) : ℚ)
        = (⌈(1 - tk) / rate⌉ : ℚ) := by
      push_cast
      ring
    refine ⟨?_, ?_, ?_⟩ <;> dsimp only
    · omega
    · rw [hsub]
      linarith
    · linarith

/-- The invariant holds along every valid sequence of sequential calls.  -/
theorem rlSeqRun_inv (maxT rate : ℚ) (hr : 0 < rate) (hm : 0 ≤ maxT) :
    ∀ (ts : List ℤ) (s0 s : RLSeq),
      (s0.lastRefill ≤ s0.ready
        ∧ 0 ≤ s0.tokens + ((s0.ready - s0.lastRefill : ℤ) : ℚ) * rate
        ∧ s0.tokens ≤ maxT) →
      rlSeqRun maxT rate s0 ts = some s →
      (s.lastRefill ≤ s.ready
        ∧ 0 ≤ s.tokens + ((s.ready - s.lastRefill : ℤ) : ℚ) * rate
        ∧ s.tokens ≤ maxT) := by
  intro ts
  induction ts with
  | nil =>
      intro s0 s hinv hrun
      obtain rfl := Option.some.inj hrun
      exact hinv
  | cons t ts ih =>
      intro s0 s hinv hrun
      simp only [rlSeqRun] at hrun
      split at hrun
      · rename_i ht
        exact ih _ s (getTokenSeq_inv maxT rate hr hm s0 t ht hinv) hrun
      · cases hrun

/-- Claim C4, amended.  When `getToken` calls are sequential — each call starts
no earlier than the completion of the previous caller's wait, so at most one
caller is ever inside `getToken` — the token count immediately after
`refill()` always lies in `[0, maxCapacity]`.  (The upper bound
`min(maxCapacity, ·) ≤ maxCapacity` holds after any refill whatsoever, even
under concurrent interleavings; the lower bound does not, see the
counterexample.)  -/
theorem rateLimiter_refill_bounds (maxT rate : ℚ) (hr : 0 < rate)
    (hm : 0 ≤ maxT) (t0 : ℤ) (ts : List ℤ) (s : RLSeq)
    (hrun : rlSeqRun maxT rate ⟨maxT, t0, t0⟩ ts = some s) (t : ℤ)
    (ht : s.ready ≤ t) :
    (0 ≤ refillTokens maxT rate s.tokens s.lastRefill t
      ∧ refillTokens maxT rate s.tokens s.lastRefill t ≤ maxT)
    ∧ ∀ (s' : RLState) (u : ℤ),
        refillTokens maxT rate s'.tokens s'.lastRefill u ≤ maxT := by
  have hinv0 : (RLSeq.mk maxT t0 t0).lastRefill ≤ (RLSeq.mk maxT t0 t0).ready
      ∧ 0 ≤ (RLSeq.mk maxT t0 t0).tokens
          + (((RLSeq.mk maxT t0 t0).ready
              - (RLSeq.mk maxT t0 t0).lastRefill : ℤ) : ℚ) * rate
      ∧ (RLSeq.mk maxT t0 t0).tokens ≤ maxT := by
    refine ⟨le_refl t0, ?_, le_refl maxT⟩
    simp only [sub_self, Int.cast_zero, zero_mul, add_zero]
    exact hm
  have hinv := rlSeqRun_inv maxT rate hr hm ts ⟨maxT, t0, t0⟩ s hinv0 hrun
  exact ⟨refill_bounds_of_inv maxT rate hr hm s t ht hinv,
    fun s' u => min_le_left _ _⟩

/-- Witness for the amended C4: the constructor state of
`new RateLimiter(4, 2)` as built by the pool at `limit = 2`
(`maxTokens = 4`, `refillRate = 1/1000` per ms), refilled immediately.  -/
theorem rateLimiter_refill_bounds_witness :
    0 ≤ refillTokens 4 (1/1000) 4 0 0
    ∧ refillTokens 4 (1/1000) 4 0 0 ≤ 4 :=
  (rateLimiter_refill_bounds 4 (1/1000) (by norm_num) (by norm_num) 0 []
    ⟨4, 0, 0⟩ rfl 0 (by exact le_refl 0)).1

/-- Claim C4, counterexample.  Under a cooperative interleaving in which two
workers (as spawned by `runtWithConcurrencyLimit` at `limit = 2`, which
constructs `new RateLimiter(4, 1)`: capacity 4, rate `1/1000` tokens/ms)
drain the bucket, both enter the wait branch, and both decrement after
waking, the next `getToken`'s `refill()` leaves the token count at `−1`,
outside `[0, maxCapacity]` — refuting the claimed invariant for arbitrary
interleavings.  The final event of the trace is a `getToken` whose `refill()`
has just executed; the stored token count is its result.  -/
theorem rateLimiter_negative_after_refill :
    rlRun 4 (1/1000) (rlInit 4 0)
      [RLEvent.getHasToken, RLEvent.getHasToken, RLEvent.getHasToken,
       RLEvent.getHasToken, RLEvent.getMustWait, RLEvent.getMustWait,
       RLEvent.advance 1000, RLEvent.wakeWaiter 0, RLEvent.wakeWaiter 0,
       RLEvent.getMustWait]
      = some ⟨-1, 1000, 1000, [3000]⟩
    ∧ ¬ (0 ≤ (-1 : ℚ)) := by
  constructor
  · norm_num [rlRun, rlStep, rlInit, refillTokens]
  · norm_num
